import Mathlib

/-!
Verification of the DogHouse internal-security core: the service-to-service
HMAC authentication guard (ServiceAuthGuard / ServiceAuthClient) and the
field-level authenticated-encryption service (DatabaseEncryptionService).

Byte strings are modelled as lists of `Fin 256`; text (base64 blobs, headers,
signatures) as `String` / `List Char`.  The AES-256-GCM primitive is modelled
as an abstract authenticated-encryption scheme (`AEAD`): the surrounding code
(key handling, IV/tag framing, base64 transport, error mapping) is translated
literally from the source, while the block-cipher internals are an abstract
parameter constrained by the standard functional properties of the mode.
-/

/-- Byte strings (e.g. Node `Buffer` contents) as lists of bytes. -/
abbrev Bytes := List (Fin 256)

/-- Truncate a natural number into a byte. -/
def mkByte (n : Nat) : Fin 256 := ⟨n % 256, Nat.mod_lt _ (by omega)⟩

/-- UTF-8 bytes of an ASCII string literal (all source literals are ASCII). -/
def strToBytes (s : String) : Bytes := s.toList.map (fun c => mkByte c.toNat)

/-! ### Base64 codec (Node `buffer.toString('base64')` / `Buffer.from(_, 'base64')`) -/

/-- The standard base64 alphabet. -/
def b64Table : List Char :=
  "ABCDEFGHIJKLMNOPQRSTUVWXYZabcdefghijklmnopqrstuvwxyz0123456789+/".toList

/-- Character for a 6-bit group. -/
def b64Char (n : Nat) : Char := b64Table.getD n '='

/-- 6-bit value of a base64 character. -/
def b64CharVal (c : Char) : Nat := b64Table.indexOf c

/-- Base64 encoding of a byte string, with `=` padding, as produced by
`Buffer.prototype.toString('base64')`. -/
def base64Encode : Bytes → List Char
  | [] => []
  | [a] => [b64Char (a.val / 4), b64Char (a.val % 4 * 16), '=', '=']
  | [a, b] => [b64Char (a.val / 4), b64Char (a.val % 4 * 16 + b.val / 16),
      b64Char (b.val % 16 * 4), '=']
  | a :: b :: c :: rest =>
      b64Char (a.val / 4) :: b64Char (a.val % 4 * 16 + b.val / 16) ::
      b64Char (b.val % 16 * 4 + c.val / 64) :: b64Char (c.val % 64) ::
      base64Encode rest

/-- Base64 decoding, as performed by `Buffer.from(s, 'base64')` on well-formed
input: groups of four characters, `=` padding ending the data. -/
def base64Decode : List Char → Bytes
  | c1 :: c2 :: c3 :: c4 :: rest =>
      let v1 := b64CharVal c1
      let v2 := b64CharVal c2
      if c3 = '=' then [mkByte (v1 * 4 + v2 / 16)]
      else
        let v3 := b64CharVal c3
        if c4 = '=' then
          [mkByte (v1 * 4 + v2 / 16), mkByte (v2 % 16 * 16 + v3 / 4)]
        else
          mkByte (v1 * 4 + v2 / 16) :: mkByte (v2 % 16 * 16 + v3 / 4) ::
            mkByte (v3 % 4 * 64 + b64CharVal c4) :: base64Decode rest
  | _ => []

theorem b64CharVal_b64Char : ∀ n, n < 64 → b64CharVal (b64Char n) = n := by decide

theorem b64Char_ne_pad : ∀ n, n < 64 → b64Char n ≠ '=' := by decide

theorem base64_roundtrip : ∀ bs : Bytes, base64Decode (base64Encode bs) = bs
  | [] => rfl
  | [a] => by
      have ha := a.isLt
      simp only [base64Encode, base64Decode]
      rw [b64CharVal_b64Char _ (by omega), b64CharVal_b64Char _ (by omega)]
      simp only [if_true, List.cons.injEq, and_true]
      apply Fin.ext
      simp only [mkByte]
      omega
  | [a, b] => by
      have ha := a.isLt
      have hb := b.isLt
      simp only [base64Encode, base64Decode]
      rw [b64CharVal_b64Char _ (by omega), b64CharVal_b64Char _ (by omega),
        b64CharVal_b64Char _ (by omega)]
      rw [if_neg (b64Char_ne_pad _ (by omega))]
      simp only [if_true, List.cons.injEq, and_true]
      constructor
      · apply Fin.ext; simp only [mkByte]; omega
      · apply Fin.ext; simp only [mkByte]; omega
  | a :: b :: c :: rest => by
      have ha := a.isLt
      have hb := b.isLt
      have hc := c.isLt
      have ih := base64_roundtrip rest
      simp only [base64Encode, base64Decode]
      rw [b64CharVal_b64Char _ (by omega), b64CharVal_b64Char _ (by omega),
        b64CharVal_b64Char _ (by omega), b64CharVal_b64Char _ (by omega)]
      rw [if_neg (b64Char_ne_pad _ (by omega)), if_neg (b64Char_ne_pad _ (by omega))]
      simp only [List.cons.injEq]
      refine ⟨?_, ?_, ?_, ih⟩
      · apply Fin.ext; simp only [mkByte]; omega
      · apply Fin.ext; simp only [mkByte]; omega
      · apply Fin.ext; simp only [mkByte]; omega

theorem base64Encode_ne_nil : ∀ bs : Bytes, bs ≠ [] → base64Encode bs ≠ []
  | [], h => absurd rfl h
  | [_], _ => by simp [base64Encode]
  | [_, _], _ => by simp [base64Encode]
  | _ :: _ :: _ :: _, _ => by simp [base64Encode]

/-! ### JS `Buffer.prototype.slice` (Uint8Array subarray index normalization) -/

/-- JavaScript slice semantics: negative indices count from the end, indices
are clamped into `[0, length]`, and the result is the half-open range. -/
def jsSlice (b : Bytes) (start stop : Int) : Bytes :=
  let len : Int := b.length
  let s : Int := if start < 0 then max (len + start) 0 else min start len
  let e : Int := if stop < 0 then max (len + stop) 0 else min stop len
  (b.take e.toNat).drop s.toNat

theorem jsSlice_frame (iv ct tag : Bytes) (hiv : iv.length = 16) (htag : tag.length = 16) :
    jsSlice (iv ++ ct ++ tag) 0 16 = iv
    ∧ jsSlice (iv ++ ct ++ tag) 16 (((iv ++ ct ++ tag).length : Int) - 16) = ct
    ∧ jsSlice (iv ++ ct ++ tag) (((iv ++ ct ++ tag).length : Int) - 16)
        ((iv ++ ct ++ tag).length : Int) = tag := by
  have hlen : (iv ++ ct ++ tag).length = 16 + ct.length + 16 := by
    simp [List.length_append, hiv, htag]; omega
  refine ⟨?_, ?_, ?_⟩
  · simp only [jsSlice, hlen]
    rw [if_neg (by omega), if_neg (by omega)]
    have h1 : (min (16 : Int) ((16 : Int) + ct.length + 16)).toNat = 16 := by omega
    have h2 : (min (0 : Int) ((16 : Int) + ct.length + 16)).toNat = 0 := by omega
    rw [show ((16 + ct.length + 16 : Nat) : Int) = (16 : Int) + ct.length + 16 by push_cast; ring]
    rw [h1, h2, List.drop_zero]
    rw [List.append_assoc, ← hiv, List.take_left]
  · simp only [jsSlice, hlen]
    rw [show ((16 + ct.length + 16 : Nat) : Int) = (16 : Int) + ct.length + 16 by push_cast; ring]
    rw [if_neg (by omega), if_neg (by omega)]
    have h1 : (min (16 : Int) ((16 : Int) + ct.length + 16)).toNat = 16 := by omega
    have h2 : (min ((16 : Int) + ct.length + 16 - 16) ((16 : Int) + ct.length + 16)).toNat
        = 16 + ct.length := by omega
    rw [h1, h2]
    rw [List.append_assoc]
    rw [show 16 + ct.length = (iv ++ ct).length by simp [hiv]]
    rw [← List.append_assoc, List.take_left]
    rw [show (16 : Nat) = iv.length from hiv.symm, List.drop_left]
  · simp only [jsSlice, hlen]
    rw [show ((16 + ct.length + 16 : Nat) : Int) = (16 : Int) + ct.length + 16 by push_cast; ring]
    rw [if_neg (by omega), if_neg (by omega)]
    have h1 : (min ((16 : Int) + ct.length + 16) ((16 : Int) + ct.length + 16)).toNat
        = 16 + ct.length + 16 := by omega
    have h2 : (min ((16 : Int) + ct.length + 16 - 16) ((16 : Int) + ct.length + 16)).toNat
        = 16 + ct.length := by omega
    rw [h1, h2]
    rw [List.take_of_length_le (by simp [hiv, htag]; omega)]
    rw [show 16 + ct.length = (iv ++ ct).length by simp [hiv], List.drop_left]

/-! ### Abstract AES-256-GCM primitive

`enc key iv plaintext = (ciphertext, authTag)` models
`createCipheriv('aes-256-gcm', key, iv)` + `update`/`final`/`getAuthTag`;
`dec key iv ciphertext authTag` models
`createDecipheriv` + `setAuthTag` + `update`/`final`, returning `none` when
`final()` throws (authentication failure).  The structure fields are the
functional facts about the mode the service code relies on: tags are 16
bytes, decryption inverts encryption, and decryption succeeds only on the
exact output of encryption (GCM authenticity, idealized). -/
structure AEAD where
  enc : Bytes → Bytes → Bytes → Bytes × Bytes
  dec : Bytes → Bytes → Bytes → Bytes → Option Bytes
  tag_len : ∀ k iv m, k.length = 32 → (enc k iv m).2.length = 16
  dec_enc : ∀ k iv m, k.length = 32 → dec k iv (enc k iv m).1 (enc k iv m).2 = some m
  dec_auth : ∀ k iv c t m, dec k iv c t = some m → enc k iv m = (c, t)

/-! ### DatabaseEncryptionService (src/backend/user-service/src/auth, database-encryption.service) -/

/-- The hardcoded development fallback key from the constructor
(`'dbencryptionsecretkeyfordevelopment'`, UTF-8). -/
def fallbackKey : Bytes := strToBytes "dbencryptionsecretkeyfordevelopment"

/-- The sentinel returned by `decrypt` on any failure. -/
def placeholder : Bytes := strToBytes "[Decryption failed]"

/-- The error message thrown by `encrypt` on any failure. -/
def encryptErrMsg : String := "Failed to encrypt data"

/-- Constructor key derivation: `DB_ENCRYPTION_KEY` missing or shorter than 32
characters falls back to the hardcoded development key; otherwise the first 32
characters are used (the missing env var reads as the empty string via
`configService.get(_, '')`). -/
def mkEncryptionKey (keyString : Bytes) : Bytes :=
  if keyString.length < 32 then fallbackKey else keyString.take 32

/-- `DatabaseEncryptionService.encrypt`.  The fresh random IV produced by
`crypto.randomBytes(16)` is passed as an explicit parameter.  A throwing
`createCipheriv` (invalid key length for aes-256) is caught and re-thrown as
`'Failed to encrypt data'`; the `utf8 → hex → Buffer` conversions are
byte-level identities and elided. -/
def DatabaseEncryptionService.encrypt (A : AEAD) (key iv text : Bytes) :
    Except String (List Char) :=
  if text = [] then Except.ok []
  else if key.length ≠ 32 then Except.error encryptErrMsg
  else
    let ct := (A.enc key iv text).1
    let authTag := (A.enc key iv text).2
    Except.ok (base64Encode (iv ++ ct ++ authTag))

/-- `DatabaseEncryptionService.decrypt`: base64-decode, split at the fixed
offsets (IV = first 16 bytes, tag = last 16 bytes, ciphertext in between, via
`Buffer.prototype.slice`), then authenticated decryption; any throw inside the
`try` (invalid key length, failed tag check) yields the placeholder. -/
def DatabaseEncryptionService.decrypt (A : AEAD) (key : Bytes) (encryptedText : List Char) :
    Bytes :=
  if encryptedText = [] then []
  else
    let buffer := base64Decode encryptedText
    let iv := jsSlice buffer 0 16
    let authTag := jsSlice buffer ((buffer.length : Int) - 16) (buffer.length : Int)
    let encrypted := jsSlice buffer 16 ((buffer.length : Int) - 16)
    if key.length ≠ 32 then placeholder
    else
      match A.dec key iv encrypted authTag with
      | some m => m
      | none => placeholder

/-! ### A concrete AEAD instance (used to witness the theorems)

A toy scheme with the same interface and functional properties: the
ciphertext is the plaintext and the 16-byte tag is a checksum over
`key ++ iv ++ ciphertext`; decryption recomputes and checks the tag. -/

/-- Checksum tag: sixteen copies of the byte sum of `key ++ iv ++ ciphertext`. -/
def toyMac (k iv c : Bytes) : Bytes :=
  List.replicate 16 (mkByte ((k ++ iv ++ c).foldl (fun a b => a + b.val) 0))

def toyAEAD : AEAD where
  enc := fun k iv m => (m, toyMac k iv m)
  dec := fun k iv c t => if t = toyMac k iv c then some c else none
  tag_len := by intro k iv m _; simp [toyMac]
  dec_enc := by intro k iv m _; simp
  dec_auth := by
    intro k iv c t m h
    simp only at h
    by_cases ht : t = toyMac k iv c
    · rw [if_pos ht] at h
      cases h
      simp [ht]
    · rw [if_neg ht] at h
      cases h

/-! ### Behaviour of `decrypt` on framed blobs -/

theorem decrypt_framed (A : AEAD) (key iv ct tag : Bytes)
    (hkey : key.length = 32) (hiv : iv.length = 16) (htag : tag.length = 16) :
    DatabaseEncryptionService.decrypt A key (base64Encode (iv ++ ct ++ tag)) =
      match A.dec key iv ct tag with
      | some m => m
      | none => placeholder := by
  have hne : iv ++ ct ++ tag ≠ [] := by
    intro h
    have : iv = [] := by
      cases iv with
      | nil => rfl
      | cons x xs => simp at h
    rw [this] at hiv
    simp at hiv
  have henc := base64Encode_ne_nil _ hne
  obtain ⟨h1, h2, h3⟩ := jsSlice_frame iv ct tag hiv htag
  unfold DatabaseEncryptionService.decrypt
  rw [if_neg henc]
  simp only [base64_roundtrip]
  rw [h1, h2, h3]
  rw [if_neg (by omega)]

/-! ### Claims about the field cipher -/

/-- C4: for every non-empty plaintext and a 32-byte key, `encrypt` produces the
base64 encoding of `iv || ciphertext || authTag` (16-byte IV, 16-byte tag) and
`decrypt` splits that blob at the fixed offsets and recovers the plaintext:
`decrypt (encrypt text) = text`. -/
theorem C4_encrypt_decrypt_roundtrip (A : AEAD) (ks iv text : Bytes)
    (hks : 32 ≤ ks.length) (hiv : iv.length = 16) (htext : text ≠ []) :
    let key := mkEncryptionKey ks
    DatabaseEncryptionService.encrypt A key iv text =
      Except.ok (base64Encode (iv ++ (A.enc key iv text).1 ++ (A.enc key iv text).2))
    ∧ DatabaseEncryptionService.decrypt A key
        (base64Encode (iv ++ (A.enc key iv text).1 ++ (A.enc key iv text).2)) = text := by
  intro key
  have hkey : key.length = 32 := by
    show (mkEncryptionKey ks).length = 32
    unfold mkEncryptionKey
    rw [if_neg (by omega)]
    simp [List.length_take]
    omega
  constructor
  · unfold DatabaseEncryptionService.encrypt
    rw [if_neg htext, if_neg (by omega)]
  · rw [decrypt_framed A key iv _ _ hkey hiv (A.tag_len key iv text hkey)]
    rw [A.dec_enc key iv text hkey]

/-- A 32-byte key, a 16-byte IV, and a 2-byte plaintext used as witnesses. -/
def keyW : Bytes := List.replicate 32 (mkByte 7)

def ivW : Bytes := List.replicate 16 (mkByte 3)

def textW : Bytes := [mkByte 104, mkByte 105]

theorem C4_encrypt_decrypt_roundtrip_witness :
    32 ≤ keyW.length ∧ ivW.length = 16 ∧ textW ≠ [] ∧
    DatabaseEncryptionService.decrypt toyAEAD (mkEncryptionKey keyW)
      (base64Encode (ivW ++ (toyAEAD.enc (mkEncryptionKey keyW) ivW textW).1
        ++ (toyAEAD.enc (mkEncryptionKey keyW) ivW textW).2))
      = textW :=
  ⟨by decide, by decide, by decide,
    (C4_encrypt_decrypt_roundtrip toyAEAD keyW ivW textW (by decide) (by decide) (by decide)).2⟩

/-- C1 (exhibit of the divergence): with the key material missing (empty) or
shorter than 32 characters, the constructor does not fail — it silently
substitutes the hardcoded development key `'dbencryptionsecretkeyfordevelopment'`,
which is not even a valid 32-byte AES-256 key. -/
theorem C1_construction_substitutes_fallback :
    mkEncryptionKey [] = fallbackKey
    ∧ mkEncryptionKey (strToBytes "short") = fallbackKey
    ∧ fallbackKey = strToBytes "dbencryptionsecretkeyfordevelopment"
    ∧ fallbackKey.length ≠ 32 := by decide

/-- C8: the fallback key is 35 bytes — an invalid AES-256 key length — so under
the fallback configuration every non-empty `encrypt` throws
`'Failed to encrypt data'` and every non-empty `decrypt` returns the
`'[Decryption failed]'` placeholder. -/
theorem C8_fallback_key_unusable (A : AEAD) (ks : Bytes) (hks : ks.length < 32) :
    mkEncryptionKey ks = fallbackKey
    ∧ fallbackKey.length = 35
    ∧ (∀ iv text : Bytes, text ≠ [] →
        DatabaseEncryptionService.encrypt A (mkEncryptionKey ks) iv text
          = Except.error encryptErrMsg)
    ∧ (∀ e : List Char, e ≠ [] →
        DatabaseEncryptionService.decrypt A (mkEncryptionKey ks) e = placeholder) := by
  have hk : mkEncryptionKey ks = fallbackKey := by
    unfold mkEncryptionKey
    rw [if_pos hks]
  have hlen : fallbackKey.length = 35 := by decide
  refine ⟨hk, hlen, ?_, ?_⟩
  · intro iv text ht
    unfold DatabaseEncryptionService.encrypt
    rw [if_neg ht, if_pos (by rw [hk, hlen]; omega)]
  · intro e he
    unfold DatabaseEncryptionService.decrypt
    rw [if_neg he, hk]
    have h32 : fallbackKey.length ≠ 32 := by rw [hlen]; omega
    simp [h32]

/-- Xor of two bytes. -/
def byteXor (a b : Fin 256) : Fin 256 := mkByte (Nat.xor a.val b.val)

/-- Flip bit `i` (byte `i / 8`, bit `i % 8` within it) of a byte string; out of
range indices leave the string unchanged. -/
def flipBit (i : Nat) (bs : Bytes) : Bytes :=
  match bs.get? (i / 8) with
  | some b => bs.set (i / 8) (byteXor b (mkByte (2 ^ (i % 8))))
  | none => bs

theorem flipBit_length (i : Nat) (bs : Bytes) : (flipBit i bs).length = bs.length := by
  unfold flipBit
  cases bs.get? (i / 8) <;> simp

/-- C6: flipping any single bit of the base64-decoded blob produced by
`encrypt` makes `decrypt` return the `'[Decryption failed]'` placeholder rather
than silently returning a wrong plaintext, under the GCM authenticity
idealization: the tampered `(iv, ciphertext, tag)` triple is not the exact
output of an honest encryption, so authenticated decryption rejects it. -/
theorem C6_bitflip_reports_failure (A : AEAD) (key iv text : Bytes) (i : Nat)
    (hkey : key.length = 32) (hiv : iv.length = 16)
    (bs' : Bytes)
    (hbs' : bs' = flipBit i (iv ++ (A.enc key iv text).1 ++ (A.enc key iv text).2))
    (hforge : ∀ m, A.enc key (jsSlice bs' 0 16) m ≠
        (jsSlice bs' 16 ((bs'.length : Int) - 16),
         jsSlice bs' ((bs'.length : Int) - 16) (bs'.length : Int))) :
    DatabaseEncryptionService.decrypt A key (base64Encode bs') = placeholder := by
  have hlen : bs'.length = (iv ++ (A.enc key iv text).1 ++ (A.enc key iv text).2).length := by
    rw [hbs', flipBit_length]
  have hne : bs' ≠ [] := by
    intro h
    rw [h] at hlen
    simp [List.length_append] at hlen
    omega
  unfold DatabaseEncryptionService.decrypt
  rw [if_neg (base64Encode_ne_nil _ hne)]
  simp only [base64_roundtrip]
  rw [if_neg (by omega)]
  cases hdec : A.dec key (jsSlice bs' 0 16)
      (jsSlice bs' 16 ((bs'.length : Int) - 16))
      (jsSlice bs' ((bs'.length : Int) - 16) (bs'.length : Int)) with
  | none => rfl
  | some m => exact absurd (A.dec_auth _ _ _ _ _ hdec) (hforge m)

theorem C6_bitflip_reports_failure_witness :
    DatabaseEncryptionService.decrypt toyAEAD keyW
      (base64Encode (flipBit 128
        (ivW ++ (toyAEAD.enc keyW ivW textW).1 ++ (toyAEAD.enc keyW ivW textW).2)))
      = placeholder := by
  apply C6_bitflip_reports_failure toyAEAD keyW ivW textW 128 (by decide) (by decide) _ rfl
  intro m hm
  rw [show toyAEAD.enc = fun k iv m => (m, toyMac k iv m) from rfl] at hm
  simp only [Prod.mk.injEq] at hm
  obtain ⟨h1, h2⟩ := hm
  subst h1
  exact absurd h2 (by decide)

/-! ### Hex decoding and constant-time comparison (ServiceAuthGuard.safeCompare) -/

/-- Value of a hexadecimal digit, upper or lower case (Node hex parsing is
case-insensitive). -/
def hexDigitVal (c : Char) : Option Nat :=
  if 48 ≤ c.toNat ∧ c.toNat ≤ 57 then some (c.toNat - 48)
  else if 97 ≤ c.toNat ∧ c.toNat ≤ 102 then some (c.toNat - 87)
  else if 65 ≤ c.toNat ∧ c.toNat ≤ 70 then some (c.toNat - 55)
  else none

/-- `Buffer.from(s, 'hex')`: consume pairs of hex digits, stopping at the
first character pair that is not valid hex (or an odd trailing character). -/
def hexDecode : List Char → Bytes
  | c1 :: c2 :: rest =>
      match hexDigitVal c1, hexDigitVal c2 with
      | some h, some l => mkByte (h * 16 + l) :: hexDecode rest
      | _, _ => []
  | _ => []

/-- `ServiceAuthGuard.safeCompare`: reject on differing string lengths, then
compare the hex-decoded byte buffers with `crypto.timingSafeEqual`, which
throws (caught, yielding `false`) when the decoded buffers differ in length. -/
def safeCompare (a b : String) : Bool :=
  if a.length ≠ b.length then false
  else
    let ba := hexDecode a.toList
    let bb := hexDecode b.toList
    if ba.length ≠ bb.length then false
    else ba = bb

/-! ### JS `parseInt(s, 10)` -/

/-- Value of the longest leading run of decimal digits; `none` when there is
no leading digit (`parseInt` returns `NaN`). -/
def digitsVal (l : List Char) : Option Nat :=
  let ds := l.takeWhile (fun c => c.isDigit)
  if ds.isEmpty then none
  else some (ds.foldl (fun n c => n * 10 + (c.toNat - 48)) 0)

/-- `parseInt(s, 10)`: skip leading whitespace, optional sign, then the
longest digit prefix; `none` models `NaN`. -/
def parseIntJS (s : String) : Option Int :=
  match s.toList.dropWhile (fun c => c = ' ' ∨ c = '\t' ∨ c = '\n' ∨ c = '\r') with
  | '-' :: rest => (digitsVal rest).map (fun n => -(n : Int))
  | '+' :: rest => (digitsVal rest).map (fun n => (n : Int))
  | rest => (digitsVal rest).map (fun n => (n : Int))

/-! ### ServiceAuthGuard (src/.../auth, service-auth.guard) -/

/-- The inbound request as seen by the guard: the three authentication headers
plus the components of the canonical string.  A header that is absent or the
empty string is modelled as `""` (the code's falsy check `!h` treats the two
identically, and a missing config entry reads as `''`). -/
structure ServiceRequest where
  serviceId : String
  timestamp : String
  signature : String
  method : String
  path : String
  bodyContent : String
deriving DecidableEq

/-- The verifier's outcome: `accepted` (canActivate returns true) or the
`UnauthorizedException` message it throws. -/
inductive AuthOutcome where
  | accepted
  | missingHeaders
  | unknownService
  | invalidOrExpiredTimestamp
  | invalidServiceCredentials
  | invalidSignature
deriving DecidableEq

/-- The canonical string `METHOD:PATH:TIMESTAMP:BODY` signed by both sides. -/
def canonicalString (method path timestamp bodyContent : String) : String :=
  method ++ ":" ++ path ++ ":" ++ timestamp ++ ":" ++ bodyContent

/-- Canonical string of an inbound request. -/
def ServiceRequest.content (r : ServiceRequest) : String :=
  canonicalString r.method r.path r.timestamp r.bodyContent

/-- `Map.get`: first (only) entry with the given key. -/
def mapGet (m : List (String × String)) (k : String) : Option String :=
  (m.find? (fun p => p.1 = k)).map Prod.snd

/-- The constructor's key registry: the four known services, each mapped to
its configured key (`''` when the env var is unset).  `allowedServices` is the
list of keys of this map. -/
def serviceKeys (userKey gatewayKey petKey authKey : String) : List (String × String) :=
  [("user-service", userKey), ("api-gateway", gatewayKey),
   ("pet-service", petKey), ("auth-service", authKey)]

/-- `ServiceAuthGuard.canActivate`, with the HMAC-SHA256 hex codec abstracted
as `hmac content key` and the current Unix time `now` passed explicitly.
Throwing an `UnauthorizedException` is modelled as returning the corresponding
rejection outcome. -/
def canActivate (hmac : String → String → String) (apiKeys : List (String × String))
    (now : Int) (r : ServiceRequest) : AuthOutcome :=
  if r.serviceId = "" ∨ r.timestamp = "" ∨ r.signature = "" then .missingHeaders
  else if ¬ (apiKeys.map Prod.fst).contains r.serviceId then .unknownService
  else
    match parseIntJS r.timestamp with
    | none => .invalidOrExpiredTimestamp
    | some requestTime =>
      if now - requestTime > 300 then .invalidOrExpiredTimestamp
      else
        let apiKey := (mapGet apiKeys r.serviceId).getD ""
        if apiKey = "" then .invalidServiceCredentials
        else if safeCompare r.signature (hmac r.content apiKey) then .accepted
        else .invalidSignature

/-! ### ServiceAuthClient (outbound signer) -/

/-- The client constructor: reads `USER_SERVICE_KEY` (default `''`) and only
logs a warning when it is empty — construction always succeeds and yields the
configured (possibly empty) signing key. -/
def mkServiceAuthClient (cfgKey : Option String) : String := cfgKey.getD ""

/-- `ServiceAuthClient.signRequest`: builds the canonical string from the
outgoing request and injects the three authentication headers, signing with
the configured key whatever it is. -/
def ServiceAuthClient.signRequest (hmac : String → String → String) (serviceKey : String)
    (timestamp method path bodyContent : String) : ServiceRequest :=
  { serviceId := "user-service"
    timestamp := timestamp
    signature := hmac (canonicalString method path timestamp bodyContent) serviceKey
    method := method
    path := path
    bodyContent := bodyContent }

/-! ### The spec's five-check state machine (modelled from the spec, for C3) -/

/-- Spec check 1: all three headers present and non-empty. -/
def headerPresence (r : ServiceRequest) : Bool :=
  r.serviceId ≠ "" ∧ r.timestamp ≠ "" ∧ r.signature ≠ ""

/-- Spec check 2: the claimed service resolves in the registry. -/
def knownService (apiKeys : List (String × String)) (r : ServiceRequest) : Bool :=
  (apiKeys.map Prod.fst).contains r.serviceId

/-- Spec check 3: parseable timestamp within the 300-second window
(inclusive at exactly 300). -/
def freshTimestamp (now : Int) (r : ServiceRequest) : Bool :=
  match parseIntJS r.timestamp with
  | none => false
  | some requestTime => now - requestTime ≤ 300

/-- Spec check 4: the resolved identity has a non-empty secret key. -/
def keyPresent (apiKeys : List (String × String)) (r : ServiceRequest) : Bool :=
  (mapGet apiKeys r.serviceId).getD "" ≠ ""

/-- Spec check 5: the recomputed signature matches the supplied one. -/
def signatureMatch (hmac : String → String → String) (apiKeys : List (String × String))
    (r : ServiceRequest) : Bool :=
  safeCompare r.signature (hmac r.content ((mapGet apiKeys r.serviceId).getD ""))

/-- The spec's linear short-circuiting state machine: first failing check
wins, `accepted` only when all five pass (modelled from the spec). -/
def verifierSpec (hmac : String → String → String) (apiKeys : List (String × String))
    (now : Int) (r : ServiceRequest) : AuthOutcome :=
  if ¬ headerPresence r then .missingHeaders
  else if ¬ knownService apiKeys r then .unknownService
  else if ¬ freshTimestamp now r then .invalidOrExpiredTimestamp
  else if ¬ keyPresent apiKeys r then .invalidServiceCredentials
  else if ¬ signatureMatch hmac apiKeys r then .invalidSignature
  else .accepted

/-! ### Relating canActivate to the spec state machine -/

theorem canActivate_eq_verifierSpec (hmac : String → String → String)
    (apiKeys : List (String × String)) (now : Int) (r : ServiceRequest) :
    canActivate hmac apiKeys now r = verifierSpec hmac apiKeys now r := by
  unfold canActivate verifierSpec headerPresence knownService freshTimestamp
    keyPresent signatureMatch
  by_cases h1 : r.serviceId = "" ∨ r.timestamp = "" ∨ r.signature = ""
  · have h1' : ¬ (r.serviceId ≠ "" ∧ r.timestamp ≠ "" ∧ r.signature ≠ "") := by tauto
    simp [h1, h1']
  · have h1' : r.serviceId ≠ "" ∧ r.timestamp ≠ "" ∧ r.signature ≠ "" := by tauto
    by_cases h2 : ((apiKeys.map Prod.fst).contains r.serviceId) = true
    · rcases hp : parseIntJS r.timestamp with _ | t
      · simp [h1, h1', h2, hp]
      · by_cases h3 : now - t ≤ 300
        · have h3' : ¬ (now - t > 300) := by omega
          by_cases h4 : (mapGet apiKeys r.serviceId).getD "" = ""
          · simp [h1, h1', h2, hp, h3, h3', h4]
          · by_cases h5 : safeCompare r.signature
                (hmac r.content ((mapGet apiKeys r.serviceId).getD "")) = true
            · simp [h1, h1', h2, hp, h3, h3', h4, h5]
            · simp [h1, h1', h2, hp, h3, h3', h4, h5]
        · have h3' : now - t > 300 := by omega
          simp [h1, h1', h2, hp, h3, h3']
    · simp [h1, h1']
      rw [if_neg h2, if_neg h2]

theorem verifierSpec_accepted_iff (hmac : String → String → String)
    (apiKeys : List (String × String)) (now : Int) (r : ServiceRequest) :
    verifierSpec hmac apiKeys now r = .accepted ↔
      headerPresence r = true ∧ knownService apiKeys r = true
      ∧ freshTimestamp now r = true ∧ keyPresent apiKeys r = true
      ∧ signatureMatch hmac apiKeys r = true := by
  unfold verifierSpec
  split_ifs with a b c d e <;> simp_all

theorem contains_of_mapGet_some : ∀ (m : List (String × String)) (k v : String),
    mapGet m k = some v → (m.map Prod.fst).contains k = true := by
  intro m k v h
  unfold mapGet at h
  cases hf : m.find? (fun p => p.1 = k) with
  | none => rw [hf] at h; cases h
  | some p =>
    have hm : p ∈ m := List.mem_of_find?_eq_some hf
    have hp : p.1 = k := by
      have := List.find?_some hf
      simpa using this
    have : k ∈ m.map Prod.fst := by
      rw [← hp]
      exact List.mem_map_of_mem Prod.fst hm
    simpa using this

/-- C3: the verifier applies exactly the five checks HeaderPresence,
KnownService, FreshTimestamp, KeyPresent, SignatureMatch in that fixed order,
returns the rejection reason of the first failing check (the if-cascade never
evaluates a later check once one fails), and returns `accepted` iff all five
pass. -/
theorem C3_five_checks_first_failure_wins (hmac : String → String → String)
    (apiKeys : List (String × String)) (now : Int) (r : ServiceRequest) :
    canActivate hmac apiKeys now r = verifierSpec hmac apiKeys now r
    ∧ (canActivate hmac apiKeys now r = .accepted ↔
        headerPresence r = true ∧ knownService apiKeys r = true
        ∧ freshTimestamp now r = true ∧ keyPresent apiKeys r = true
        ∧ signatureMatch hmac apiKeys r = true) := by
  refine ⟨canActivate_eq_verifierSpec hmac apiKeys now r, ?_⟩
  rw [canActivate_eq_verifierSpec hmac apiKeys now r]
  exact verifierSpec_accepted_iff hmac apiKeys now r

/-- C2: with the other checks out of the way (headers present, service
known), the freshness check accepts any parseable timestamp with
`now - requestTime = 300` exactly (the request then stands or falls on the
remaining checks, and is accepted when they pass), and rejects as
`invalidOrExpiredTimestamp` any unparsable timestamp and any parseable one
with `now - requestTime > 300`; in particular `now - requestTime = 301` is
rejected. -/
theorem C2_timestamp_window (hmac : String → String → String)
    (apiKeys : List (String × String)) (now : Int) (r : ServiceRequest)
    (hsid : r.serviceId ≠ "") (hts : r.timestamp ≠ "") (hsig : r.signature ≠ "")
    (hknown : knownService apiKeys r = true) :
    (parseIntJS r.timestamp = none →
      canActivate hmac apiKeys now r = .invalidOrExpiredTimestamp)
    ∧ (∀ t, parseIntJS r.timestamp = some t → now - t > 300 →
        canActivate hmac apiKeys now r = .invalidOrExpiredTimestamp)
    ∧ (∀ t, parseIntJS r.timestamp = some t → now - t = 300 →
        keyPresent apiKeys r = true → signatureMatch hmac apiKeys r = true →
        canActivate hmac apiKeys now r = .accepted)
    ∧ (∀ t, parseIntJS r.timestamp = some t → now - t = 301 →
        canActivate hmac apiKeys now r = .invalidOrExpiredTimestamp) := by
  have hpres : headerPresence r = true := by
    unfold headerPresence
    simp [hsid, hts, hsig]
  refine ⟨?_, ?_, ?_, ?_⟩
  · intro hp
    rw [canActivate_eq_verifierSpec]
    unfold verifierSpec freshTimestamp
    simp [hpres, hknown, hp]
  · intro t hp hold
    rw [canActivate_eq_verifierSpec]
    unfold verifierSpec freshTimestamp
    have : ¬ (now - t ≤ 300) := by omega
    simp [hpres, hknown, hp, this]
  · intro t hp hex hkeyp hsm
    rw [canActivate_eq_verifierSpec]
    unfold verifierSpec
    have hfresh : freshTimestamp now r = true := by
      unfold freshTimestamp
      rw [hp]
      simp
      omega
    simp [hpres, hknown, hfresh, hkeyp, hsm]
  · intro t hp hex
    rw [canActivate_eq_verifierSpec]
    unfold verifierSpec freshTimestamp
    have : ¬ (now - t ≤ 300) := by omega
    simp [hpres, hknown, hp, this]

/-- An abstract HMAC function, a key registry, and requests used as concrete
witnesses for the guard theorems. -/
def hmacW : String → String → String := fun _ _ => "ab"

def keysW : List (String × String) := serviceKeys "secret" "" "" ""

def reqW : ServiceRequest :=
  { serviceId := "user-service", timestamp := "1700000000", signature := "ab",
    method := "GET", path := "/users/1", bodyContent := "" }

theorem C2_timestamp_window_witness :
    canActivate hmacW keysW 1700000300 reqW = .accepted
    ∧ canActivate hmacW keysW 1700000301 reqW = .invalidOrExpiredTimestamp :=
  ⟨(C2_timestamp_window hmacW keysW 1700000300 reqW (by decide) (by decide) (by decide)
      (by decide)).2.2.1 1700000000 (by decide) (by decide) (by decide) (by decide),
   (C2_timestamp_window hmacW keysW 1700000301 reqW (by decide) (by decide) (by decide)
      (by decide)).2.2.2 1700000000 (by decide) (by decide)⟩

/-- C5: a request whose serviceId is present in the registry but resolves to
an empty secret key is never accepted, whatever the supplied signature; when
the preceding checks pass it is rejected precisely as
`invalidServiceCredentials`. -/
theorem C5_empty_key_never_accepted (hmac : String → String → String)
    (apiKeys : List (String × String)) (now : Int) (r : ServiceRequest)
    (hkey : mapGet apiKeys r.serviceId = some "") :
    canActivate hmac apiKeys now r ≠ .accepted
    ∧ (r.serviceId ≠ "" → r.timestamp ≠ "" → r.signature ≠ "" →
        freshTimestamp now r = true →
        canActivate hmac apiKeys now r = .invalidServiceCredentials) := by
  have hkp : keyPresent apiKeys r = false := by
    unfold keyPresent
    rw [hkey]
    simp
  constructor
  · intro hacc
    rw [canActivate_eq_verifierSpec] at hacc
    have := (verifierSpec_accepted_iff hmac apiKeys now r).mp hacc
    rw [hkp] at this
    simp at this
  · intro hsid hts hsig hfresh
    have hpres : headerPresence r = true := by
      unfold headerPresence
      simp [hsid, hts, hsig]
    have hknown : knownService apiKeys r = true := by
      unfold knownService
      exact contains_of_mapGet_some apiKeys r.serviceId "" hkey
    rw [canActivate_eq_verifierSpec]
    unfold verifierSpec
    simp [hpres, hknown, hfresh, hkp]

/-- A request claiming a known service whose configured key is empty. -/
def reqW5 : ServiceRequest :=
  { serviceId := "pet-service", timestamp := "1700000000", signature := "ab",
    method := "GET", path := "/pets", bodyContent := "" }

theorem C5_empty_key_never_accepted_witness :
    canActivate hmacW keysW 1700000100 reqW5 = .invalidServiceCredentials :=
  (C5_empty_key_never_accepted hmacW keysW 1700000100 reqW5 (by decide)).2
    (by decide) (by decide) (by decide) (by decide)

/-- C10: the freshness check only bounds how far in the past a timestamp may
lie — any parseable timestamp at or beyond the current time (arbitrarily far
in the future) passes it, and the request is never rejected as
`invalidOrExpiredTimestamp`. -/
theorem C10_future_timestamps_pass (hmac : String → String → String)
    (apiKeys : List (String × String)) (now t : Int) (r : ServiceRequest)
    (hp : parseIntJS r.timestamp = some t) (hfut : now ≤ t) :
    freshTimestamp now r = true
    ∧ canActivate hmac apiKeys now r ≠ .invalidOrExpiredTimestamp := by
  have hfresh : freshTimestamp now r = true := by
    unfold freshTimestamp
    rw [hp]
    simp
    omega
  refine ⟨hfresh, ?_⟩
  rw [canActivate_eq_verifierSpec]
  unfold verifierSpec
  split_ifs <;> simp_all

/-- A request stamped one billion seconds in the future. -/
def reqW10 : ServiceRequest :=
  { serviceId := "user-service", timestamp := "2700000000", signature := "ab",
    method := "GET", path := "/users/1", bodyContent := "" }

theorem C10_future_timestamps_pass_witness :
    freshTimestamp 1700000000 reqW10 = true
    ∧ canActivate hmacW keysW 1700000000 reqW10 ≠ .invalidOrExpiredTimestamp :=
  C10_future_timestamps_pass hmacW keysW 1700000000 2700000000 reqW10
    (by decide) (by decide)

/-! ### C9: case-insensitive hex comparison in safeCompare -/

/-- The lowercase hexadecimal alphabet. -/
def lowerHexChars : List Char := "0123456789abcdef".toList

/-- The lowercase hexadecimal letters. -/
def hexLetters : List Char := "abcdef".toList

/-- Uppercasing of the characters occurring in a lowercase-hex string (on
such strings this is exactly JS `toUpperCase`). -/
def upperChar (c : Char) : Char :=
  if c = 'a' then 'A' else if c = 'b' then 'B' else if c = 'c' then 'C'
  else if c = 'd' then 'D' else if c = 'e' then 'E' else if c = 'f' then 'F' else c

/-- The uppercase variant of a string. -/
def strUpper (s : String) : String := String.mk (s.toList.map upperChar)

theorem hexDigitVal_upperChar : ∀ c ∈ lowerHexChars, hexDigitVal (upperChar c) = hexDigitVal c := by
  decide

theorem upperChar_ne_self : ∀ c ∈ hexLetters, upperChar c ≠ c := by decide

theorem hexDecode_map_upperChar : ∀ l : List Char, (∀ c ∈ l, c ∈ lowerHexChars) →
    hexDecode (l.map upperChar) = hexDecode l
  | [], _ => rfl
  | [_], _ => rfl
  | c1 :: c2 :: rest, h => by
    have h1 := hexDigitVal_upperChar c1 (h c1 (by simp))
    have h2 := hexDigitVal_upperChar c2 (h c2 (by simp))
    have ih := hexDecode_map_upperChar rest (fun c hc => h c (by simp [hc]))
    simp only [List.map_cons]
    unfold hexDecode
    rw [h1, h2, ih]

theorem safeCompare_upper (s : String) (hhex : ∀ c ∈ s.toList, c ∈ lowerHexChars) :
    safeCompare (strUpper s) s = true := by
  unfold safeCompare strUpper
  have hlen : (String.mk (s.toList.map upperChar)).length = s.length := by
    show (s.toList.map upperChar).length = s.toList.length
    simp
  rw [if_neg (by omega)]
  have htl : (String.mk (s.toList.map upperChar)).toList = s.toList.map upperChar := rfl
  rw [htl, hexDecode_map_upperChar _ hhex]
  simp

theorem map_upperChar_fix : ∀ (l : List Char), l.map upperChar = l → ∀ d ∈ l, upperChar d = d := by
  intro l h d hd
  induction l with
  | nil => cases hd
  | cons c rest ih =>
    simp only [List.map_cons, List.cons.injEq] at h
    rcases List.mem_cons.mp hd with rfl | hr
    · exact h.1
    · exact ih h.2 hr

theorem strUpper_ne_self (s : String) (h : ∃ c ∈ s.toList, c ∈ hexLetters) :
    strUpper s ≠ s := by
  intro heq
  rcases h with ⟨d, hd, hdl⟩
  have hmap : s.toList.map upperChar = s.toList := by
    have := congrArg String.toList heq
    simpa [strUpper] using this
  exact upperChar_ne_self d hdl (map_upperChar_fix s.toList hmap d hd)

/-- C9: `safeCompare` decodes both strings as hex bytes before comparing, so
when the correct signature is the lowercase hex string `s`, supplying its
uppercase variant — a different string of the same length — still compares
equal and the request is accepted: lowercase-hex form of the signature header
is not enforced. -/
theorem C9_uppercase_signature_accepted (hmac : String → String → String)
    (apiKeys : List (String × String)) (now : Int) (r : ServiceRequest) (s : String)
    (hs : hmac r.content ((mapGet apiKeys r.serviceId).getD "") = s)
    (hhex : ∀ c ∈ s.toList, c ∈ lowerHexChars)
    (hletter : ∃ c ∈ s.toList, c ∈ hexLetters)
    (hsig : r.signature = strUpper s)
    (hsid : r.serviceId ≠ "") (hts : r.timestamp ≠ "")
    (hknown : knownService apiKeys r = true)
    (hfresh : freshTimestamp now r = true)
    (hkeyp : keyPresent apiKeys r = true) :
    strUpper s ≠ s ∧ (strUpper s).length = s.length
    ∧ canActivate hmac apiKeys now r = .accepted := by
  have hne := strUpper_ne_self s hletter
  have hsne : r.signature ≠ "" := by
    rw [hsig]
    rcases hletter with ⟨d, hd, _⟩
    intro hempty
    unfold strUpper at hempty
    have : s.toList.map upperChar = [] := congrArg String.toList hempty
    have hnil : s.toList = [] := by simpa using this
    rw [hnil] at hd
    cases hd
  have hpres : headerPresence r = true := by
    unfold headerPresence
    simp [hsid, hts, hsne]
  have hsm : signatureMatch hmac apiKeys r = true := by
    unfold signatureMatch
    rw [hs, hsig]
    exact safeCompare_upper s hhex
  refine ⟨hne, ?_, ?_⟩
  · show (s.toList.map upperChar).length = s.toList.length
    simp
  · rw [canActivate_eq_verifierSpec]
    exact (verifierSpec_accepted_iff hmac apiKeys now r).mpr
      ⟨hpres, hknown, hfresh, hkeyp, hsm⟩

/-- The C2 witness request with the uppercase variant of the signature. -/
def reqW9 : ServiceRequest :=
  { serviceId := "user-service", timestamp := "1700000000", signature := "AB",
    method := "GET", path := "/users/1", bodyContent := "" }

theorem C9_uppercase_signature_accepted_witness :
    strUpper "ab" ≠ "ab" ∧ (strUpper "ab").length = ("ab" : String).length
    ∧ canActivate hmacW keysW 1700000100 reqW9 = .accepted :=
  C9_uppercase_signature_accepted hmacW keysW 1700000100 reqW9 "ab"
    (by decide) (by decide) (by decide) (by decide) (by decide) (by decide)
    (by decide) (by decide) (by decide)

/-- C7 (exhibit of the divergence): with `USER_SERVICE_KEY` unset (or empty)
the client constructor does not fail — it only warns — and `signRequest`
still emits a fully signed envelope whose signature is computed with the
empty key. -/
theorem C7_signs_with_empty_key (hmac : String → String → String)
    (timestamp method path bodyContent : String) :
    mkServiceAuthClient none = ""
    ∧ mkServiceAuthClient (some "") = ""
    ∧ ServiceAuthClient.signRequest hmac (mkServiceAuthClient none)
        timestamp method path bodyContent
      = { serviceId := "user-service", timestamp := timestamp,
          signature := hmac (canonicalString method path timestamp bodyContent) "",
          method := method, path := path, bodyContent := bodyContent } :=
  ⟨rfl, rfl, rfl⟩

theorem C8_fallback_key_unusable_witness :
    ([] : Bytes).length < 32
    ∧ DatabaseEncryptionService.encrypt toyAEAD (mkEncryptionKey []) ivW textW
        = Except.error encryptErrMsg
    ∧ DatabaseEncryptionService.decrypt toyAEAD (mkEncryptionKey []) ['A'] = placeholder :=
  ⟨by decide,
   (C8_fallback_key_unusable toyAEAD [] (by decide)).2.2.1 ivW textW (by decide),
   (C8_fallback_key_unusable toyAEAD [] (by decide)).2.2.2 ['A'] (by decide)⟩
